import Mathlib

/-!
Formal model of the WooCommerce API Go client (`woocommerce/client.go`),
verifying its request-signing and request-construction behaviour.

All definitions are shallow embeddings of the Go source:
* Go `url.Values` (a map from key to a slice of values, with `Add` appending)
  is modelled as an ordered list of key/value pairs, `WC.Values`;
* `crypto/sha256`, `crypto/sha1`, `crypto/hmac` and `encoding/base64` are
  modelled bit-faithfully over byte lists (`Nat` values `< 256`);
* `url.QueryEscape` and `url.Values.Encode` are modelled byte-faithfully;
* ambient effects (the random nonce read, the clock) are explicit inputs;
* the HTTP dispatch is cut at the transport boundary: `Client.request`
  returns the request that would be handed to the executor (or the
  validation error), plus the final state of the caller's parameter map,
  and `WC.interpretResponse` models the response-status interpretation.
-/

namespace WC

/-! ## Bytes and strings -/

/-- UTF-8 encoding of a single character (Go strings are UTF-8 bytes). -/
def charUtf8 (c : Char) : List Nat :=
  let n := c.toNat
  if n < 0x80 then [n]
  else if n < 0x800 then
    [0xC0 ||| (n >>> 6), 0x80 ||| (n &&& 0x3F)]
  else if n < 0x10000 then
    [0xE0 ||| (n >>> 12), 0x80 ||| ((n >>> 6) &&& 0x3F), 0x80 ||| (n &&& 0x3F)]
  else
    [0xF0 ||| (n >>> 18), 0x80 ||| ((n >>> 12) &&& 0x3F),
     0x80 ||| ((n >>> 6) &&& 0x3F), 0x80 ||| (n &&& 0x3F)]

/-- The bytes of a string, as Go sees it (`[]byte(s)`). -/
def strBytes (s : String) : List Nat :=
  s.data.flatMap charUtf8

/-- Uppercase hexadecimal digit, as used by Go's `net/url` escaping. -/
def hexUpperDigit (n : Nat) : Char :=
  if n < 10 then Char.ofNat (0x30 + n) else Char.ofNat (0x41 + (n - 10))

/-- Lowercase hexadecimal digit, as produced by Go's `fmt` verb `%x`. -/
def hexLowerDigit (n : Nat) : Char :=
  if n < 10 then Char.ofNat (0x30 + n) else Char.ofNat (0x61 + (n - 10))

/-- Render a byte list in lowercase hex (Go `fmt.Sprintf("%x", b)`). -/
def bytesToHexLower (bs : List Nat) : String :=
  ⟨bs.flatMap fun b => [hexLowerDigit (b / 16), hexLowerDigit (b % 16)]⟩

/-- Bytes Go's `url.QueryEscape` leaves unescaped: ALPHA / DIGIT / - _ . ~ -/
def isUnreservedByte (b : Nat) : Bool :=
  (0x41 ≤ b && b ≤ 0x5A) || (0x61 ≤ b && b ≤ 0x7A) ||
  (0x30 ≤ b && b ≤ 0x39) || b == 0x2D || b == 0x5F || b == 0x2E || b == 0x7E

/-- One byte of Go's `url.QueryEscape` output (space becomes `+`). -/
def escapeByte (b : Nat) : List Char :=
  if isUnreservedByte b then [Char.ofNat b]
  else if b == 0x20 then ['+']
  else ['%', hexUpperDigit (b / 16), hexUpperDigit (b % 16)]

/-- Go's `url.QueryEscape`. -/
def queryEscape (s : String) : String :=
  ⟨(strBytes s).flatMap escapeByte⟩

/-! ## Byte-wise lexicographic string order (Go's `sort.Strings` order;
on UTF-8 data, byte order coincides with code-point order). -/

/-- Strict lexicographic order on character lists by code point. -/
def charsLtb : List Char → List Char → Bool
  | [], [] => false
  | [], _ :: _ => true
  | _ :: _, [] => false
  | a :: as, b :: bs =>
    if a.toNat < b.toNat then true
    else if b.toNat < a.toNat then false
    else charsLtb as bs

/-- Strict byte-lexicographic order on strings (Go `s1 < s2`). -/
def strLtb (a b : String) : Bool := charsLtb a.data b.data

/-- Byte-lexicographic `≤` on strings. -/
def strLeb (a b : String) : Bool := !(strLtb b a)

/-- The `≤` relation used to sort parameter keys. -/
def keyLe (a b : String) : Prop := strLeb a b = true

instance : DecidableRel keyLe := fun a b =>
  inferInstanceAs (Decidable (strLeb a b = true))

/-- Go's `sort.Strings`. -/
def sortStrings (l : List String) : List String :=
  List.insertionSort keyLe l

/-! ## SHA-256 (`crypto/sha256`) -/

/-- 32-bit right rotation. -/
def rotr32 (n x : Nat) : Nat :=
  ((x >>> n) ||| (x <<< (32 - n))) % 4294967296

/-- SHA-256 round constants. -/
def sha256K : List Nat :=
  [1116352408, 1899447441, 3049323471, 3921009573, 961987163, 1508970993,
   2453635748, 2870763221, 3624381080, 310598401, 607225278, 1426881987,
   1925078388, 2162078206, 2614888103, 3248222580, 3835390401, 4022224774,
   264347078, 604807628, 770255983, 1249150122, 1555081692, 1996064986,
   2554220882, 2821834349, 2952996808, 3210313671, 3336571891, 3584528711,
   113926993, 338241895, 666307205, 773529912, 1294757372, 1396182291,
   1695183700, 1986661051, 2177026350, 2456956037, 2730485921, 2820302411,
   3259730800, 3345764771, 3516065817, 3600352804, 4094571909, 275423344,
   430227734, 506948616, 659060556, 883997877, 958139571, 1322822218,
   1537002063, 1747873779, 1955562222, 2024104815, 2227730452, 2361852424,
   2428436474, 2756734187, 3204031479, 3329325298]

/-- SHA-256 initial hash state. -/
def sha256InitH : List Nat :=
  [1779033703, 3144134277, 1013904242, 2773480762,
   1359893119, 2600822924, 528734635, 1541459225]

/-- `n` bytes of `v`, big-endian. -/
def beBytes (n v : Nat) : List Nat :=
  (List.range n).map fun i => (v >>> (8 * (n - 1 - i))) % 256

/-- Merkle–Damgård padding shared by SHA-1 and SHA-256: append `0x80`,
zero bytes to 56 mod 64, then the 64-bit big-endian bit length. -/
def shaPad (msg : List Nat) : List Nat :=
  let len := msg.length
  let zeros := (120 - (len + 1) % 64) % 64
  msg ++ [0x80] ++ List.replicate zeros 0 ++ beBytes 8 (len * 8)

/-- Group bytes into big-endian 32-bit words. -/
def be32Words : List Nat → List Nat
  | a :: b :: c :: d :: rest =>
    (a * 16777216 + b * 65536 + c * 256 + d) :: be32Words rest
  | _ => []

/-- Split a word list into 16-word blocks. -/
def chunk16 : List Nat → List (List Nat)
  | w0 :: w1 :: w2 :: w3 :: w4 :: w5 :: w6 :: w7 ::
    w8 :: w9 :: w10 :: w11 :: w12 :: w13 :: w14 :: w15 :: rest =>
    [w0, w1, w2, w3, w4, w5, w6, w7, w8, w9, w10, w11, w12, w13, w14, w15] ::
      chunk16 rest
  | _ => []

/-- SHA-256 message-schedule extension; `acc` holds the words produced so
far, most recent first. -/
def sha256ExtendLoop : Nat → List Nat → List Nat
  | 0, acc => acc
  | fuel + 1, acc =>
    let w2 := acc.getD 1 0
    let w7 := acc.getD 6 0
    let w15 := acc.getD 14 0
    let w16 := acc.getD 15 0
    let s0 := (rotr32 7 w15) ^^^ (rotr32 18 w15) ^^^ (w15 >>> 3)
    let s1 := (rotr32 17 w2) ^^^ (rotr32 19 w2) ^^^ (w2 >>> 10)
    sha256ExtendLoop fuel (((w16 + s0 + w7 + s1) % 4294967296) :: acc)

/-- The 64-word SHA-256 message schedule of one 16-word block. -/
def sha256Schedule (ws : List Nat) : List Nat :=
  (sha256ExtendLoop 48 ws.reverse).reverse

/-- One SHA-256 round step on the 8-word working state. -/
def sha256Step (st : List Nat) (wk : Nat × Nat) : List Nat :=
  match st with
  | [a, b, c, d, e, f, g, h] =>
    let s1 := (rotr32 6 e) ^^^ (rotr32 11 e) ^^^ (rotr32 25 e)
    let ch := (e &&& f) ^^^ ((e ^^^ 4294967295) &&& g)
    let t1 := (h + s1 + ch + wk.2 + wk.1) % 4294967296
    let s0 := (rotr32 2 a) ^^^ (rotr32 13 a) ^^^ (rotr32 22 a)
    let mj := (a &&& b) ^^^ (a &&& c) ^^^ (b &&& c)
    let t2 := (s0 + mj) % 4294967296
    [(t1 + t2) % 4294967296, a, b, c, (d + t1) % 4294967296, e, f, g]
  | other => other

/-- SHA-256 compression of one block into the hash state. -/
def sha256Compress (h ws : List Nat) : List Nat :=
  let final := ((sha256Schedule ws).zip sha256K).foldl sha256Step h
  (h.zip final).map fun p => (p.1 + p.2) % 4294967296

/-- Fold SHA-256 compression over all blocks. -/
def sha256Blocks (h : List Nat) : List (List Nat) → List Nat
  | [] => h
  | blk :: rest => sha256Blocks (sha256Compress h blk) rest

/-- SHA-256 digest (32 bytes) of a byte list. -/
def sha256 (msg : List Nat) : List Nat :=
  (sha256Blocks sha256InitH (chunk16 (be32Words (shaPad msg)))).flatMap
    (beBytes 4)

/-! ## SHA-1 (`crypto/sha1`, used only to render the nonce) -/

/-- 32-bit left rotation. -/
def rotl32 (n x : Nat) : Nat :=
  ((x <<< n) ||| (x >>> (32 - n))) % 4294967296

/-- SHA-1 initial hash state. -/
def sha1InitH : List Nat :=
  [0x67452301, 0xEFCDAB89, 0x98BADCFE, 0x10325476, 0xC3D2E1F0]

/-- SHA-1 message-schedule extension, most recent word first. -/
def sha1ExtendLoop : Nat → List Nat → List Nat
  | 0, acc => acc
  | fuel + 1, acc =>
    let w3 := acc.getD 2 0
    let w8 := acc.getD 7 0
    let w14 := acc.getD 13 0
    let w16 := acc.getD 15 0
    sha1ExtendLoop fuel ((rotl32 1 (w3 ^^^ w8 ^^^ w14 ^^^ w16)) :: acc)

/-- The 80-word SHA-1 message schedule of one 16-word block. -/
def sha1Schedule (ws : List Nat) : List Nat :=
  (sha1ExtendLoop 64 ws.reverse).reverse

/-- One SHA-1 round step; the word index selects the round function. -/
def sha1Step (st : List Nat) (iw : Nat × Nat) : List Nat :=
  match st with
  | [a, b, c, d, e] =>
    let i := iw.1
    let f :=
      if i < 20 then (b &&& c) ||| ((b ^^^ 4294967295) &&& d)
      else if i < 40 then b ^^^ c ^^^ d
      else if i < 60 then (b &&& c) ||| (b &&& d) ||| (c &&& d)
      else b ^^^ c ^^^ d
    let k :=
      if i < 20 then 0x5A827999
      else if i < 40 then 0x6ED9EBA1
      else if i < 60 then 0x8F1BBCDC
      else 0xCA62C1D6
    let t := (rotl32 5 a + f + e + k + iw.2) % 4294967296
    [t, a, rotl32 30 b, c, d]
  | other => other

/-- SHA-1 compression of one block into the hash state. -/
def sha1Compress (h ws : List Nat) : List Nat :=
  let final := ((List.range 80).zip (sha1Schedule ws)).foldl sha1Step h
  (h.zip final).map fun p => (p.1 + p.2) % 4294967296

/-- Fold SHA-1 compression over all blocks. -/
def sha1Blocks (h : List Nat) : List (List Nat) → List Nat
  | [] => h
  | blk :: rest => sha1Blocks (sha1Compress h blk) rest

/-- SHA-1 digest (20 bytes) of a byte list. -/
def sha1 (msg : List Nat) : List Nat :=
  (sha1Blocks sha1InitH (chunk16 (be32Words (shaPad msg)))).flatMap (beBytes 4)

/-! ## HMAC (`crypto/hmac`) and base64 (`encoding/base64`) -/

/-- HMAC-SHA256 with block size 64. -/
def hmacSha256 (key msg : List Nat) : List Nat :=
  let k0 := if 64 < key.length then sha256 key else key
  let kp := k0 ++ List.replicate (64 - k0.length) 0
  let ipad := kp.map fun b => b ^^^ 0x36
  let opad := kp.map fun b => b ^^^ 0x5C
  sha256 (opad ++ sha256 (ipad ++ msg))

/-- The standard base64 alphabet. -/
def base64Alphabet : List Char :=
  "ABCDEFGHIJKLMNOPQRSTUVWXYZabcdefghijklmnopqrstuvwxyz0123456789+/".data

/-- Look up a 6-bit value in the base64 alphabet. -/
def b64Char (n : Nat) : Char := base64Alphabet.getD n 'A'

/-- Base64 (standard alphabet, `=` padding) of a byte list, as chars. -/
def base64Chars : List Nat → List Char
  | [] => []
  | [a] =>
    [b64Char (a >>> 2), b64Char ((a &&& 3) <<< 4), '=', '=']
  | [a, b] =>
    [b64Char (a >>> 2), b64Char (((a &&& 3) <<< 4) ||| (b >>> 4)),
     b64Char ((b &&& 15) <<< 2), '=']
  | a :: b :: c :: rest =>
    b64Char (a >>> 2) :: b64Char (((a &&& 3) <<< 4) ||| (b >>> 4)) ::
    b64Char (((b &&& 15) <<< 2) ||| (c >>> 6)) :: b64Char (c &&& 63) ::
    base64Chars rest

/-- Go's `base64.StdEncoding.EncodeToString`. -/
def base64Std (bs : List Nat) : String := ⟨base64Chars bs⟩

/-! ## `url.Values`

Go's `url.Values` is a `map[string][]string`. We model it as the ordered
list of key/value pairs in insertion order: the value slice of a key `k`
is the list of second components of pairs whose key is `k`, in order.
The map's arbitrary key-iteration order is irrelevant to the source's
behaviour because every key traversal is followed by sorting. -/

abbrev Values : Type := List (String × String)

/-- `url.Values.Add`: append a value to the slice of a key. -/
def Values.add (v : Values) (key value : String) : Values :=
  v ++ [(key, value)]

/-- The value slice `v[key]`, in insertion order. -/
def Values.valuesOf (v : Values) (key : String) : List String :=
  (List.filter (fun p => p.1 == key) v).map Prod.snd

/-- `url.Values.Get`: the first value of a key, `""` when absent. -/
def Values.get (v : Values) (key : String) : String :=
  ((v.valuesOf key).head?).getD ""

/-- The key set of a `url.Values` (each key once, as Go map ranging). -/
def Values.keys (v : Values) : List String :=
  (List.map Prod.fst v).dedup

/-- The `escape(k)=escape(v)` fragments of `url.Values.Encode`: keys
sorted, each key's values in slice order. -/
def Values.encodePairs (v : Values) : List String :=
  (sortStrings v.keys).flatMap fun k =>
    (v.valuesOf k).map fun val => queryEscape k ++ "=" ++ queryEscape val

/-- Go's `url.Values.Encode`. -/
def Values.encode (v : Values) : String :=
  String.intercalate "&" v.encodePairs

/-! ## The client (`woocommerce/client.go`) -/

/-- Source constant `Version`. -/
def Version : String := "1.0.0"

/-- Source constant `UserAgent`. -/
def UserAgent : String := "WooCommerce API Client-PHP/" ++ Version

/-- Source constant `HashAlgorithm`. -/
def HashAlgorithm : String := "HMAC-SHA256"

/-- The client state assembled by `NewClient`: the parsed store URL
(scheme and its rendered string form), the credential pair, and the
option fields the signing core reads (`Version`, `OauthTimestamp` as
Unix seconds). -/
structure Client where
  scheme : String
  storeURLStr : String
  ck : String
  cs : String
  version : String
  oauthTimestamp : Int

/-- The result of `rand.Read(nonce)` on the 16-byte nonce buffer: the
buffer contents afterwards and the returned error, both explicit here
because the source reads ambient randomness. -/
structure RandRead where
  bytes : List Nat
  error : Option String

/-- `fmt.Sprintf("%x", sha1.Sum(nonce))`: the nonce rendered as the
lowercase hex of the SHA-1 digest of the nonce buffer. -/
def sha1NonceHex (bytes : List Nat) : String :=
  bytesToHexLower (sha1 bytes)

/-- `basicAuth` after the two `Add` calls (the caller's map state). -/
def Client.basicAuthParams (c : Client) (params : Values) : Values :=
  (params.add "consumer_key" c.ck).add "consumer_secret" c.cs

/-- `basicAuth`: add the credentials and encode. -/
def Client.basicAuth (c : Client) (params : Values) : String :=
  (c.basicAuthParams params).encode

/-- The signing key of `oauthSign`: the consumer secret, with `&`
appended under the source's condition `version != "v1" || version != "v2"`
(transcribed verbatim). -/
def signingKey (cs version : String) : String :=
  if version ≠ "v1" ∨ version ≠ "v2" then cs ++ "&" else cs

/-- `oauthSign`: base64 of HMAC-SHA256 over
`method & QueryEscape(endpoint) & QueryEscape(params)`. -/
def Client.oauthSign (c : Client) (method endpoint params : String) : String :=
  let key := signingKey c.cs c.version
  let a := String.intercalate "&" [method, queryEscape endpoint, queryEscape params]
  base64Std (hmacSha256 (strBytes key) (strBytes a))

/-- The caller's map after `oauth` adds `oauth_consumer_key`,
`oauth_timestamp`, `oauth_nonce` and `oauth_signature_method`. -/
def Client.oauthParams (c : Client) (nonceHex : String) (params : Values) :
    Values :=
  (((params.add "oauth_consumer_key" c.ck).add
      "oauth_timestamp" (toString c.oauthTimestamp)).add
    "oauth_nonce" nonceHex).add "oauth_signature_method" HashAlgorithm

/-- The local `paramStr` of `oauth`: sorted keys rendered `key=value`
with the raw first value of each key, joined by `&`. -/
def oauthParamStr (v : Values) : String :=
  String.intercalate "&"
    ((sortStrings v.keys).map fun k => k ++ "=" ++ v.get k)

/-- The `oauth_signature` value computed inside `oauth`. -/
def Client.oauthSignature (c : Client) (method urlStr nonceHex : String)
    (params : Values) : String :=
  c.oauthSign method urlStr (oauthParamStr (c.oauthParams nonceHex params))

/-- The caller's map at the end of `oauth` (signature added last). -/
def Client.oauthFinalParams (c : Client) (method urlStr nonceHex : String)
    (params : Values) : Values :=
  (c.oauthParams nonceHex params).add "oauth_signature"
    (c.oauthSignature method urlStr nonceHex params)

/-- `oauth`: the signed OAuth1 query string. The `rand.Read` outcome is
the explicit input `read`; exactly as in the source, `read.error` is
never consulted — only the buffer contents are used. -/
def Client.oauth (c : Client) (method urlStr : String) (params : Values)
    (read : RandRead) : String :=
  (c.oauthFinalParams method urlStr (sha1NonceHex read.bytes) params).encode

/-- The HTTP request the source hands to `http.Client.Do`. -/
structure RequestPlan where
  method : String
  url : String
  contentType : String

/-- `request`, up to the transport boundary: builds the URL, computes the
auth query (Basic on `https`, OAuth1 otherwise), validates the method,
and yields the request that would be dispatched (or the validation
error) together with the final state of the caller's parameter map
(`url.Values` is a reference type, so the `Add` calls performed during
signing are visible to the caller; a `nil` map is replaced by a fresh
empty one inside `basicAuth`/`oauth`, leaving the caller's `nil`
untouched). The request body is threaded to the dispatch unchanged and
carries no logic, so it is omitted here. -/
def Client.request (c : Client) (method endpoint : String)
    (params : Option Values) (read : RandRead) :
    Except String RequestPlan × Values :=
  let urlstr := c.storeURLStr ++ endpoint
  let ps := params.getD []
  let qfp :=
    if c.scheme = "https" then (c.basicAuth ps, c.basicAuthParams ps)
    else (c.oauth method urlstr ps read,
          c.oauthFinalParams method urlstr (sha1NonceHex read.bytes) ps)
  let fullURL := urlstr ++ "?" ++ qfp.1
  let result : Except String RequestPlan :=
    if method = "POST" ∨ method = "PUT" then
      Except.ok ⟨method, fullURL, "application/json"⟩
    else if method = "DELETE" ∨ method = "GET" ∨ method = "OPTIONS" then
      Except.ok ⟨method, fullURL, "application/json"⟩
    else
      Except.error ("Method is not recognised: " ++ method)
  (result, qfp.2)

/-- `Post`: `request("POST", endpoint, nil, data)`. -/
def Client.Post (c : Client) (endpoint : String) (read : RandRead) :
    Except String RequestPlan × Values :=
  c.request "POST" endpoint none read

/-- `Put`: `request("PUT", endpoint, nil, data)`. -/
def Client.Put (c : Client) (endpoint : String) (read : RandRead) :
    Except String RequestPlan × Values :=
  c.request "PUT" endpoint none read

/-- `Get`: `request("GET", endpoint, params, nil)`. -/
def Client.Get (c : Client) (endpoint : String) (params : Option Values)
    (read : RandRead) : Except String RequestPlan × Values :=
  c.request "GET" endpoint params read

/-- `Delete`: the source dispatches `request("POST", endpoint, params, nil)`. -/
def Client.Delete (c : Client) (endpoint : String) (params : Option Values)
    (read : RandRead) : Except String RequestPlan × Values :=
  c.request "POST" endpoint params read

/-- `Options`: `request("OPTIONS", endpoint, nil, nil)`. -/
def Client.Options (c : Client) (endpoint : String) (read : RandRead) :
    Except String RequestPlan × Values :=
  c.request "OPTIONS" endpoint none read

/-- A received HTTP response, at the boundary this model cuts at. -/
structure HTTPResponse (β : Type) where
  statusCode : Nat
  status : String
  body : β

/-- The response interpretation at the end of `request`: any status other
than 200 or 201 becomes an error carrying the status text, otherwise the
body is handed to the caller. -/
def interpretResponse {β : Type} (resp : HTTPResponse β) : Except String β :=
  if resp.statusCode ≠ 200 ∧ resp.statusCode ≠ 201 then
    Except.error ("Request failed: " ++ resp.status)
  else
    Except.ok resp.body

/-! ## Specification-side definitions

`specParamString` follows the spec's words for the OAuth1 parameter
string: the parameters (a mapping with unique keys, §3 of the spec)
sorted lexicographically by key, rendered as `key=value` with each
parameter's raw value, joined by `&`. Unlike the source's `oauthParamStr`
it never consults `Get`: each parameter carries its own value. -/

/-- Key order lifted to key/value pairs. -/
def pairKeyLe (p q : String × String) : Prop := strLeb p.1 q.1 = true

instance : DecidableRel pairKeyLe := fun p q =>
  inferInstanceAs (Decidable (strLeb p.1 q.1 = true))

/-- The spec's parameter string: parameters sorted by key, rendered with
their own raw values. -/
def specParamString (v : Values) : String :=
  String.intercalate "&"
    ((List.insertionSort pairKeyLe v).map fun p => p.1 ++ "=" ++ p.2)

/-! ## Order theory of the byte-lexicographic comparator -/

theorem charsLtb_asymm : ∀ {a b : List Char},
    charsLtb a b = true → charsLtb b a = false := by
  intro a
  induction a with
  | nil =>
    intro b h
    cases b with
    | nil => simp [charsLtb] at h
    | cons d ds => simp [charsLtb]
  | cons c cs ih =>
    intro b h
    cases b with
    | nil => simp [charsLtb] at h
    | cons d ds =>
      simp only [charsLtb] at h ⊢
      by_cases h1 : c.toNat < d.toNat
      · have h2 : ¬ d.toNat < c.toNat := Nat.lt_asymm h1
        simp [h1, h2]
      · by_cases h2 : d.toNat < c.toNat
        · simp [h1, h2] at h
        · simp only [h1, h2, if_neg, if_false] at h ⊢
          exact ih h

theorem charsLtb_eq_of_not : ∀ {a b : List Char},
    charsLtb a b = false → charsLtb b a = false → a = b := by
  intro a
  induction a with
  | nil =>
    intro b h1 h2
    cases b with
    | nil => rfl
    | cons d ds => simp [charsLtb] at h1
  | cons c cs ih =>
    intro b h1 h2
    cases b with
    | nil => simp [charsLtb] at h2
    | cons d ds =>
      simp only [charsLtb] at h1 h2
      by_cases hcd : c.toNat < d.toNat
      · simp [hcd] at h1
      · by_cases hdc : d.toNat < c.toNat
        · simp [hdc] at h2
        · simp only [hcd, hdc, if_neg, if_false] at h1 h2
          have hn : c.toNat = d.toNat := Nat.le_antisymm
            (Nat.le_of_not_lt hdc) (Nat.le_of_not_lt hcd)
          have hc : c = d := by
            have := congrArg Char.ofNat hn
            rwa [Char.ofNat_toNat, Char.ofNat_toNat] at this
          rw [hc, ih h1 h2]

theorem charsLtb_trans : ∀ {a b c : List Char},
    charsLtb a b = true → charsLtb b c = true → charsLtb a c = true := by
  intro a
  induction a with
  | nil =>
    intro b c h1 h2
    cases c with
    | nil =>
      cases b with
      | nil => simp [charsLtb] at h1
      | cons y ys => simp [charsLtb] at h2
    | cons z zs => simp [charsLtb]
  | cons x xs ih =>
    intro b c h1 h2
    cases b with
    | nil => simp [charsLtb] at h1
    | cons y ys =>
      cases c with
      | nil => simp [charsLtb] at h2
      | cons z zs =>
        simp only [charsLtb] at h1 h2 ⊢
        by_cases hxy : x.toNat < y.toNat
        · by_cases hyz : y.toNat < z.toNat
          · simp [Nat.lt_trans hxy hyz]
          · by_cases hzy : z.toNat < y.toNat
            · simp [hyz, hzy] at h2
            · have : y.toNat = z.toNat := Nat.le_antisymm
                (Nat.le_of_not_lt hzy) (Nat.le_of_not_lt hyz)
              simp [← this, hxy]
        · by_cases hyx : y.toNat < x.toNat
          · simp [hxy, hyx] at h1
          · have hxyn : x.toNat = y.toNat := Nat.le_antisymm
              (Nat.le_of_not_lt hyx) (Nat.le_of_not_lt hxy)
            simp only [hxy, hyx, if_neg, if_false] at h1
            by_cases hyz : y.toNat < z.toNat
            · simp [hxyn, hyz]
            · by_cases hzy : z.toNat < y.toNat
              · simp [hyz, hzy] at h2
              · simp only [hyz, hzy, if_neg, if_false] at h2
                simp only [hxyn, hyz, hzy, if_neg, if_false]
                exact ih h1 h2

theorem strLtb_asymm {a b : String} (h : strLtb a b = true) :
    strLtb b a = false := charsLtb_asymm h

theorem strEq_of_not_ltb {a b : String} (h1 : strLtb a b = false)
    (h2 : strLtb b a = false) : a = b := by
  cases a with
  | mk da =>
    cases b with
    | mk db =>
      have : da = db := charsLtb_eq_of_not h1 h2
      rw [this]

theorem strLtb_of_leb_ne {a b : String} (h : strLeb a b = true)
    (hne : a ≠ b) : strLtb a b = true := by
  have hba : strLtb b a = false := by
    simpa [strLeb] using h
  cases hab : strLtb a b with
  | true => rfl
  | false => exact absurd (strEq_of_not_ltb hab hba) hne

instance : IsTotal String keyLe := by
  constructor
  intro a b
  simp only [keyLe, strLeb, Bool.not_eq_true']
  cases h : strLtb b a with
  | false => exact Or.inl rfl
  | true => exact Or.inr (strLtb_asymm h)

instance : IsTrans String keyLe := by
  constructor
  intro a b c h1 h2
  simp only [keyLe, strLeb, Bool.not_eq_true'] at h1 h2 ⊢
  cases hca : strLtb c a with
  | false => rfl
  | true =>
    cases hab : strLtb a b with
    | true => exact absurd (charsLtb_trans hca hab) (by simp [strLtb] at h2 ⊢; exact h2)
    | false =>
      have : a = b := strEq_of_not_ltb hab h1
      subst this
      exact absurd hca (by simp [h2])

instance : IsAntisymm String keyLe := by
  constructor
  intro a b h1 h2
  simp only [keyLe, strLeb, Bool.not_eq_true'] at h1 h2
  exact strEq_of_not_ltb h2 h1

instance : IsTotal (String × String) pairKeyLe := by
  constructor
  intro p q
  exact total_of keyLe p.1 q.1

instance : IsTrans (String × String) pairKeyLe := by
  constructor
  intro p q r h1 h2
  exact Trans.trans (r := keyLe) (s := keyLe) (t := keyLe) h1 h2

/-- Strict key order on pairs, antisymmetric because asymmetric. -/
def pairKeyLt (p q : String × String) : Prop := strLtb p.1 q.1 = true

instance : IsAntisymm (String × String) pairKeyLt := by
  constructor
  intro p q h1 h2
  rw [pairKeyLt, strLtb_asymm h1] at h2
  cases h2

/-! ## Properties of the `url.Values` model -/

theorem valuesOf_cons (p : String × String) (v : Values) (key : String) :
    Values.valuesOf (p :: v) key =
      if p.1 = key then p.2 :: Values.valuesOf v key
      else Values.valuesOf v key := by
  simp only [Values.valuesOf, List.filter_cons]
  by_cases h : p.1 = key
  · simp [h]
  · simp [h]

theorem get_cons_self (p : String × String) (v : Values) :
    Values.get (p :: v) p.1 = p.2 := by
  simp [Values.get, valuesOf_cons]

theorem get_cons_ne (p : String × String) (v : Values) (key : String)
    (h : p.1 ≠ key) : Values.get (p :: v) key = Values.get v key := by
  simp [Values.get, valuesOf_cons, h]

theorem get_eq_of_mem_of_nodup {v : Values}
    (hnd : (v.map Prod.fst).Nodup) :
    ∀ p ∈ v, v.get p.1 = p.2 := by
  induction v with
  | nil => intro p hp; cases hp
  | cons q v ih =>
    intro p hp
    rw [List.map_cons] at hnd
    have hnd' := List.nodup_cons.mp hnd
    rcases List.mem_cons.mp hp with rfl | hp'
    · exact get_cons_self p v
    · have hne : q.1 ≠ p.1 := fun h =>
        hnd'.1 (h ▸ List.mem_map_of_mem Prod.fst hp')
      rw [get_cons_ne q v p.1 hne]
      exact ih hnd'.2 p hp'

theorem map_get_self {v : Values} (hnd : (v.map Prod.fst).Nodup) :
    v.map (fun p => (p.1, v.get p.1)) = v := by
  have h : ∀ p ∈ v, (p.1, v.get p.1) = id p := by
    intro p hp
    have := get_eq_of_mem_of_nodup hnd p hp
    simp [this]
  rw [List.map_congr_left h, List.map_id]

/-- Key lemma for C1: on a mapping with unique keys, the source's
parameter string (sorted key set, first value per key) coincides with
the spec's rendering (the pair list sorted by key, raw values). -/
theorem oauthParamStr_eq_spec {v : Values}
    (hnd : (v.map Prod.fst).Nodup) :
    oauthParamStr v = specParamString v := by
  have hded : (v.map Prod.fst).dedup = v.map Prod.fst := hnd.dedup
  have hks : List.Perm (sortStrings v.keys) (v.map Prod.fst) := by
    rw [sortStrings]
    refine (List.perm_insertionSort keyLe v.keys).trans ?_
    rw [Values.keys, hded]
  have hperm2 : List.Perm ((sortStrings v.keys).map (fun k => (k, v.get k))) v := by
    refine (hks.map _).trans ?_
    rw [List.map_map]
    have : ((fun k => (k, v.get k)) ∘ Prod.fst) =
        fun p : String × String => (p.1, v.get p.1) := rfl
    rw [this, map_get_self hnd]
  have hperm1 : List.Perm (List.insertionSort pairKeyLe v) v :=
    List.perm_insertionSort _ v
  have hndv : v.Nodup := (List.Nodup.of_map Prod.fst) hnd
  -- strict sortedness of the sorted pair list
  have hs1 : (List.insertionSort pairKeyLe v).Sorted pairKeyLt := by
    have hsle : (List.insertionSort pairKeyLe v).Sorted pairKeyLe :=
      List.sorted_insertionSort pairKeyLe v
    have hmapnd : ((List.insertionSort pairKeyLe v).map Prod.fst).Nodup :=
      ((hperm1.map Prod.fst).nodup_iff).mpr hnd
    have hpw : (List.insertionSort pairKeyLe v).Pairwise
        (fun p q : String × String => p.1 ≠ q.1) :=
      (List.pairwise_map).mp hmapnd
    exact (hsle.and hpw).imp fun h => strLtb_of_leb_ne h.1 h.2
  have hs2 : ((sortStrings v.keys).map (fun k => (k, v.get k))).Sorted
      pairKeyLt := by
    have hsle : (sortStrings v.keys).Sorted keyLe :=
      List.sorted_insertionSort keyLe v.keys
    have hknd : (sortStrings v.keys).Nodup :=
      (hks.nodup_iff).mpr hnd
    refine (List.pairwise_map).mpr ?_
    exact (hsle.and hknd).imp fun h => strLtb_of_leb_ne h.1 h.2
  have heq : List.insertionSort pairKeyLe v =
      (sortStrings v.keys).map (fun k => (k, v.get k)) :=
    List.eq_of_perm_of_sorted (hperm1.trans hperm2.symm) hs1 hs2
  rw [oauthParamStr, specParamString, heq, List.map_map]
  rfl

theorem signingKey_eq (cs version : String) : signingKey cs version = cs ++ "&" := by
  rw [signingKey, if_pos]
  by_cases h : version = "v1"
  · refine Or.inr ?_
    rw [h]
    intro h2
    exact absurd h2 (by decide)
  · exact Or.inl h

/-- Does a parameter key start with the bytes `oauth_`? -/
def isOauthField (s : String) : Bool :=
  match s.data with
  | 'o' :: 'a' :: 'u' :: 't' :: 'h' :: '_' :: _ => true
  | _ => false

theorem valuesOf_append (l1 l2 : Values) (key : String) :
    Values.valuesOf (l1 ++ l2) key =
      Values.valuesOf l1 key ++ Values.valuesOf l2 key := by
  simp [Values.valuesOf, List.filter_append]

theorem get_append_left (l1 l2 : Values) (key : String)
    (h : Values.valuesOf l1 key ≠ []) :
    Values.get (l1 ++ l2) key = Values.get l1 key := by
  rw [Values.get, Values.get, valuesOf_append]
  cases hv : Values.valuesOf l1 key with
  | nil => exact absurd hv h
  | cons x xs => simp

theorem valuesOf_ne_nil_of_mem_keys {l : Values} {key : String}
    (h : key ∈ l.map Prod.fst) : Values.valuesOf l key ≠ [] := by
  rcases List.mem_map.mp h with ⟨p, hp, hk⟩
  have : p.2 ∈ Values.valuesOf l key := by
    rw [Values.valuesOf]
    refine List.mem_map_of_mem Prod.snd ?_
    rw [List.mem_filter]
    exact ⟨hp, by simp [hk]⟩
  intro hnil
  rw [hnil] at this
  cases this

theorem get_middle_congr (ps1 ps2 : Values) (k v v' key : String)
    (hk : k ∈ ps1.map Prod.fst) :
    Values.get (ps1 ++ (k, v) :: ps2) key =
      Values.get (ps1 ++ (k, v') :: ps2) key := by
  by_cases hkey : key = k
  · subst hkey
    rw [get_append_left _ _ _ (valuesOf_ne_nil_of_mem_keys hk),
        get_append_left _ _ _ (valuesOf_ne_nil_of_mem_keys hk)]
  · rw [Values.get, Values.get, valuesOf_append, valuesOf_append,
        valuesOf_cons, valuesOf_cons,
        if_neg (show ¬ ((k, v) : String × String).1 = key from
          fun h => hkey h.symm),
        if_neg (show ¬ ((k, v') : String × String).1 = key from
          fun h => hkey h.symm)]

/-- The parameter string depends on a mapping only through its key list
and its first value per key. -/
theorem oauthParamStr_congr (v w : Values)
    (hkeys : v.map Prod.fst = w.map Prod.fst)
    (hget : ∀ key, v.get key = w.get key) :
    oauthParamStr v = oauthParamStr w := by
  rw [oauthParamStr, oauthParamStr, Values.keys, Values.keys, hkeys]
  congr 1
  exact List.map_congr_left fun k _ => by rw [hget k]

/-! ## Concrete fixtures used by witnesses and counterexamples -/

/-- The golden-vector parameter set fixed by the spec. -/
def goldenParams : Values :=
  [("oauth_consumer_key", "ck"), ("oauth_timestamp", "1000000000"),
   ("oauth_nonce", "abc123"), ("oauth_signature_method", "HMAC-SHA256")]

/-- The golden-vector endpoint URL fixed by the spec. -/
def goldenURL : String := "http://example.com/wc-api/v3/products"

/-- A client matching the golden vector: plain-HTTP store, key `ck`,
secret `cs`, timestamp `1000000000`. -/
def goldenClient : Client :=
  ⟨"http", "http://example.com", "ck", "cs", "v3", 1000000000⟩

/-! ## The claims -/

/-- C1: In OAuth1 mode, for every method, URL and parameter mapping (with
unique keys, the spec's data model), the parameter string the source signs
is all parameter keys sorted byte-lexicographically, rendered `key=value`
with raw (unescaped) values and joined by `&` — it equals the spec-side
rendering `specParamString` of the pair list sorted by key; the signature
base string is `METHOD&percentEncode(URL)&percentEncode(parameter string)`;
`oauth_signature` is the standard base64 of HMAC-SHA256 over that base
string keyed by the consumer secret followed by `&`; and on the golden
vector the parameter string is exactly the literal fixed by the spec. -/
theorem claim_C1 (c : Client) (method urlStr nonceHex : String)
    (params : Values)
    (hnodup : ((c.oauthParams nonceHex params).map Prod.fst).Nodup) :
    oauthParamStr (c.oauthParams nonceHex params) =
        specParamString (c.oauthParams nonceHex params)
    ∧ c.oauthSignature method urlStr nonceHex params =
        base64Std (hmacSha256 (strBytes (c.cs ++ "&"))
          (strBytes (method ++ "&" ++ queryEscape urlStr ++ "&" ++
            queryEscape (oauthParamStr (c.oauthParams nonceHex params)))))
    ∧ oauthParamStr goldenParams =
        "oauth_consumer_key=ck&oauth_nonce=abc123&oauth_signature_method=HMAC-SHA256&oauth_timestamp=1000000000" := by
  refine ⟨oauthParamStr_eq_spec hnodup, ?_, by decide⟩
  simp only [Client.oauthSignature, Client.oauthSign, signingKey_eq]
  rfl

theorem claim_C1_witness :
    ((goldenClient.oauthParams "abc123" []).map Prod.fst).Nodup
    ∧ (oauthParamStr (goldenClient.oauthParams "abc123" []) =
        specParamString (goldenClient.oauthParams "abc123" [])
      ∧ goldenClient.oauthSignature "GET" goldenURL "abc123" [] =
        base64Std (hmacSha256 (strBytes (goldenClient.cs ++ "&"))
          (strBytes ("GET" ++ "&" ++ queryEscape goldenURL ++ "&" ++
            queryEscape (oauthParamStr (goldenClient.oauthParams "abc123" [])))))
      ∧ oauthParamStr goldenParams =
        "oauth_consumer_key=ck&oauth_nonce=abc123&oauth_signature_method=HMAC-SHA256&oauth_timestamp=1000000000") :=
  ⟨by decide, claim_C1 goldenClient "GET" goldenURL "abc123" [] (by decide)⟩

/-- C2: for every version string the HMAC signing key is exactly the
consumer secret followed by one `&`: the source's condition
`version != "v1" || version != "v2"` is a tautology, so the branch that
would omit the `&` is never taken. -/
theorem claim_C2 (cs version : String) :
    signingKey cs version = cs ++ "&" ∧ (version ≠ "v1" ∨ version ≠ "v2") := by
  refine ⟨signingKey_eq cs version, ?_⟩
  by_cases h : version = "v1"
  · exact Or.inr (by rw [h]; exact fun h2 => absurd h2 (by decide))
  · exact Or.inl h

/-- C3: the claim states the public Delete operation dispatches (and
signs) the literal DELETE verb; in the source `Delete` invokes `request`
with the literal `"POST"`, so the dispatched and signed method is `POST`
and never `DELETE` — the code contradicts the claim (a bug the spec
itself flags). -/
theorem claim_C3 (c : Client) (endpoint : String) (params : Option Values)
    (read : RandRead) :
    c.Delete endpoint params read = c.request "POST" endpoint params read
    ∧ (c.Delete endpoint params read).1.map RequestPlan.method =
        Except.ok "POST"
    ∧ ("POST" : String) ≠ "DELETE" := by
  refine ⟨rfl, ?_, by decide⟩
  by_cases hs : c.scheme = "https" <;>
    simp [Client.Delete, Client.request, hs, Except.map]

/-- C7: the claim states a failed nonce read is fatal and never ignored;
in the source the error returned by `rand.Read` is discarded: the OAuth1
output is independent of that error, and even when the read fails (error
present, buffer in whatever state the failed read left it) a signed query
with an `oauth_signature` entry is still produced — the code contradicts
the claim. -/
theorem claim_C7 (c : Client) (method urlStr : String) (params : Values)
    (bytes : List Nat) (e : String) :
    c.oauth method urlStr params ⟨bytes, some e⟩ =
      c.oauth method urlStr params ⟨bytes, none⟩
    ∧ ("oauth_signature",
        c.oauthSignature method urlStr (sha1NonceHex bytes) params) ∈
        c.oauthFinalParams method urlStr (sha1NonceHex bytes) params := by
  refine ⟨rfl, ?_⟩
  rw [Client.oauthFinalParams, Values.add]
  exact List.mem_append_right _ (List.mem_singleton.mpr rfl)

/-- Any request that yields a dispatchable request gives it the URL
`store ++ endpoint ++ "?" ++ authQuery` — the auth query is the only
query string appended. -/
theorem request_ok_url (c : Client) (method endpoint : String)
    (params : Option Values) (read : RandRead) (plan : RequestPlan)
    (h : (c.request method endpoint params read).1 = Except.ok plan) :
    plan.url = c.storeURLStr ++ endpoint ++ "?" ++
      (if c.scheme = "https" then c.basicAuth (params.getD [])
       else c.oauth method (c.storeURLStr ++ endpoint)
         (params.getD []) read) := by
  by_cases hs : c.scheme = "https" <;>
  · simp only [Client.request, hs, if_true, if_false, ite_true, ite_false,
      eq_self_iff_true, not_true, not_false_iff] at h ⊢
    split at h
    · injection h with h'
      rw [← h']
    · split at h
      · injection h with h'
        rw [← h']
      · exact Except.noConfusion h

/-- C4: `request` accepts exactly GET, POST, PUT, DELETE and OPTIONS,
yielding the request that is then dispatched; any other method string is
rejected with a validation error naming the method — the error arises in
the pure request-construction stage, so no request is ever produced for
the network dispatch. -/
theorem claim_C4 (c : Client) (method endpoint : String)
    (params : Option Values) (read : RandRead) :
    ((method = "GET" ∨ method = "POST" ∨ method = "PUT" ∨
        method = "DELETE" ∨ method = "OPTIONS") →
      (c.request method endpoint params read).1 =
        Except.ok ⟨method,
          c.storeURLStr ++ endpoint ++ "?" ++
            (if c.scheme = "https" then c.basicAuth (params.getD [])
             else c.oauth method (c.storeURLStr ++ endpoint)
               (params.getD []) read),
          "application/json"⟩)
    ∧ (method ≠ "GET" → method ≠ "POST" → method ≠ "PUT" →
        method ≠ "DELETE" → method ≠ "OPTIONS" →
      (c.request method endpoint params read).1 =
        Except.error ("Method is not recognised: " ++ method)) := by
  constructor
  · intro h
    by_cases hs : c.scheme = "https" <;>
      rcases h with rfl | rfl | rfl | rfl | rfl <;>
        simp [Client.request, hs]
  · intro h1 h2 h3 h4 h5
    by_cases hs : c.scheme = "https" <;>
      simp [Client.request, hs, h1, h2, h3, h4, h5]

/-- An https-store client used as a concrete witness input. -/
def c4w : Client := ⟨"https", "https://shop.example", "ck", "cs", "v3", 1⟩

/-- A plain-http client used as a concrete witness input. -/
def c5w : Client := ⟨"http", "http://shop.example", "ck", "cs", "v3", 1⟩

/-- A fixed successful 16-byte random read. -/
def rread0 : RandRead := ⟨List.replicate 16 0, none⟩

theorem claim_C4_witness :
    ("PATCH" : String) ≠ "GET"
    ∧ (c4w.request "PATCH" "/p" none rread0).1 =
        Except.error ("Method is not recognised: " ++ "PATCH")
    ∧ (c4w.request "GET" "/p" none rread0).1 =
        Except.ok ⟨"GET", c4w.storeURLStr ++ "/p" ++ "?" ++
          c4w.basicAuth [], "application/json"⟩ :=
  ⟨by decide,
   (claim_C4 c4w "PATCH" "/p" none rread0).2 (by decide) (by decide)
     (by decide) (by decide) (by decide),
   (claim_C4 c4w "GET" "/p" none rread0).1 (Or.inl rfl)⟩

/-- C5: the auth mode is selected by the resolved store URL's scheme: on
`https` the query appended to the URL is the Basic encoding whose
parameter list is exactly the caller's parameters plus `consumer_key`
and `consumer_secret` (and no `oauth_`-prefixed field when the caller
supplied none); on any other scheme it is the OAuth1-signed query; in
both modes that auth query is the only query string appended to the
dispatched URL. -/
theorem claim_C5 (c : Client) (method endpoint : String) (ps : Values)
    (read : RandRead) :
    (c.scheme = "https" →
      (∀ plan : RequestPlan,
        (c.request method endpoint (some ps) read).1 = Except.ok plan →
        plan.url = c.storeURLStr ++ endpoint ++ "?" ++ c.basicAuth ps)
      ∧ c.basicAuthParams ps =
          ps ++ [("consumer_key", c.ck), ("consumer_secret", c.cs)]
      ∧ ((∀ p ∈ ps, isOauthField p.1 = false) →
          ∀ p ∈ c.basicAuthParams ps, isOauthField p.1 = false))
    ∧ (c.scheme ≠ "https" →
      ∀ plan : RequestPlan,
        (c.request method endpoint (some ps) read).1 = Except.ok plan →
        plan.url = c.storeURLStr ++ endpoint ++ "?" ++
          c.oauth method (c.storeURLStr ++ endpoint) ps read) := by
  constructor
  · intro hs
    refine ⟨?_, ?_, ?_⟩
    · intro plan h
      have := request_ok_url c method endpoint (some ps) read plan h
      rwa [if_pos hs] at this
    · simp [Client.basicAuthParams, Values.add, List.append_assoc]
    · intro hnone p hp
      simp only [Client.basicAuthParams, Values.add, List.append_assoc,
        List.mem_append] at hp
      rcases hp with h1 | h2
      · exact hnone p h1
      · rcases h2 with h2 | h2 <;> simp only [List.mem_singleton] at h2 <;>
          subst h2 <;> rfl
  · intro hs plan h
    have := request_ok_url c method endpoint (some ps) read plan h
    rwa [if_neg hs] at this

theorem claim_C5_witness :
    (c4w.scheme = "https"
    ∧ c4w.basicAuthParams [("a", "1")] =
        [("a", "1")] ++ [("consumer_key", c4w.ck), ("consumer_secret", c4w.cs)]
    ∧ (∀ p ∈ c4w.basicAuthParams [("a", "1")], isOauthField p.1 = false)
    ∧ (⟨"GET", c4w.storeURLStr ++ "/p" ++ "?" ++ c4w.basicAuth [("a", "1")],
        "application/json"⟩ : RequestPlan).url =
        c4w.storeURLStr ++ "/p" ++ "?" ++ c4w.basicAuth [("a", "1")])
    ∧ (c5w.scheme ≠ "https"
    ∧ (⟨"GET", c5w.storeURLStr ++ "/p" ++ "?" ++
          c5w.oauth "GET" (c5w.storeURLStr ++ "/p") [("a", "1")] rread0,
        "application/json"⟩ : RequestPlan).url =
        c5w.storeURLStr ++ "/p" ++ "?" ++
          c5w.oauth "GET" (c5w.storeURLStr ++ "/p") [("a", "1")] rread0) := by
  have h4 := claim_C5 c4w "GET" "/p" [("a", "1")] rread0
  have h5 := claim_C5 c5w "GET" "/p" [("a", "1")] rread0
  refine ⟨⟨rfl, (h4.1 rfl).2.1, (h4.1 rfl).2.2 (by decide), ?_⟩,
    by decide, ?_⟩
  · exact (h4.1 rfl).1 _ rfl
  · exact h5.2 (by decide) _ rfl

/-- C6: a received response with status 200 or 201 yields the body,
untouched, with no error; any other status yields an error carrying the
response status text, and the body is never returned. -/
theorem claim_C6 {β : Type} (resp : HTTPResponse β) :
    ((resp.statusCode = 200 ∨ resp.statusCode = 201) →
      interpretResponse resp = Except.ok resp.body)
    ∧ (resp.statusCode ≠ 200 → resp.statusCode ≠ 201 →
      interpretResponse resp =
          Except.error ("Request failed: " ++ resp.status)
        ∧ ∀ b : β, interpretResponse resp ≠ Except.ok b) := by
  constructor
  · intro h
    rcases h with h | h <;> simp [interpretResponse, h]
  · intro h1 h2
    refine ⟨by simp [interpretResponse, h1, h2], ?_⟩
    intro b
    simp [interpretResponse, h1, h2]

theorem claim_C6_witness :
    (interpretResponse (⟨200, "200 OK", "payload"⟩ : HTTPResponse String) =
        Except.ok "payload")
    ∧ ((404 : Nat) ≠ 200
    ∧ interpretResponse
          (⟨404, "404 Not Found", "payload"⟩ : HTTPResponse String) =
        Except.error ("Request failed: " ++ "404 Not Found")) :=
  ⟨(claim_C6 _).1 (Or.inl rfl), by decide,
   ((claim_C6 _).2 (by decide) (by decide)).1⟩

/-- C9: every request made with a non-nil parameter mapping (as `Get` and
`Delete` allow) leaves the caller's mapping extended in place with the
auth fields added during signing — `consumer_key` and `consumer_secret`
in Basic mode, the four `oauth_*` fields plus `oauth_signature` in OAuth1
mode — for every method string, hence also when the call returns a
validation error (signing precedes the method check in the source), so
the mapping is not safe to reuse. -/
theorem claim_C9 (c : Client) (method endpoint : String) (ps : Values)
    (read : RandRead) :
    (c.request method endpoint (some ps) read).2 =
      (if c.scheme = "https"
        then ps ++ [("consumer_key", c.ck), ("consumer_secret", c.cs)]
        else ps ++ [("oauth_consumer_key", c.ck),
          ("oauth_timestamp", toString c.oauthTimestamp),
          ("oauth_nonce", sha1NonceHex read.bytes),
          ("oauth_signature_method", HashAlgorithm),
          ("oauth_signature", c.oauthSignature method
            (c.storeURLStr ++ endpoint) (sha1NonceHex read.bytes) ps)])
    ∧ (c.Get endpoint (some ps) read).2 =
        (c.request "GET" endpoint (some ps) read).2
    ∧ (c.Delete endpoint (some ps) read).2 =
        (c.request "POST" endpoint (some ps) read).2 := by
  refine ⟨?_, rfl, rfl⟩
  by_cases hs : c.scheme = "https" <;>
    simp [Client.request, hs, Client.basicAuthParams,
      Client.oauthFinalParams, Client.oauthParams, Values.add,
      List.append_assoc]

/-- The four parameter pairs `oauth` appends before signing. -/
def oauthTail (c : Client) (nonceHex : String) : Values :=
  [("oauth_consumer_key", c.ck),
   ("oauth_timestamp", toString c.oauthTimestamp),
   ("oauth_nonce", nonceHex),
   ("oauth_signature_method", HashAlgorithm)]

theorem oauthParams_append (c : Client) (nonceHex : String) (ps : Values) :
    c.oauthParams nonceHex ps = ps ++ oauthTail c nonceHex := by
  simp [Client.oauthParams, Values.add, oauthTail, List.append_assoc]

/-- C10: when the caller's mapping binds a key `k` more than once (first
inside `ps1`, again later as `(k, v2)`), only the first value reaches
the signed parameter string: the parameter string and the signature are
unchanged when the later value is replaced by anything else, while the
encoded query that goes on the wire still carries the later value — so
it travels uncovered by `oauth_signature`. -/
theorem claim_C10 (c : Client) (method urlStr nonceHex : String)
    (ps1 ps2 : Values) (k v2 v2' : String)
    (hk : k ∈ ps1.map Prod.fst) :
    Values.get (ps1 ++ (k, v2) :: ps2) k = Values.get ps1 k
    ∧ (c.oauthParams nonceHex (ps1 ++ (k, v2) :: ps2)).get k =
        Values.get ps1 k
    ∧ oauthParamStr (c.oauthParams nonceHex (ps1 ++ (k, v2) :: ps2)) =
        oauthParamStr (c.oauthParams nonceHex (ps1 ++ (k, v2') :: ps2))
    ∧ c.oauthSignature method urlStr nonceHex (ps1 ++ (k, v2) :: ps2) =
        c.oauthSignature method urlStr nonceHex (ps1 ++ (k, v2') :: ps2)
    ∧ (queryEscape k ++ "=" ++ queryEscape v2) ∈
        (c.oauthFinalParams method urlStr nonceHex
          (ps1 ++ (k, v2) :: ps2)).encodePairs := by
  have hvne := valuesOf_ne_nil_of_mem_keys hk
  have e2 : ∀ w : String,
      c.oauthParams nonceHex (ps1 ++ (k, w) :: ps2) =
        ps1 ++ (k, w) :: (ps2 ++ oauthTail c nonceHex) := by
    intro w
    rw [oauthParams_append]
    simp [List.append_assoc]
  have h1 : Values.get (ps1 ++ (k, v2) :: ps2) k = Values.get ps1 k :=
    get_append_left _ _ _ hvne
  have h2 : (c.oauthParams nonceHex (ps1 ++ (k, v2) :: ps2)).get k =
      Values.get ps1 k := by
    rw [e2 v2]
    exact get_append_left _ _ _ hvne
  have h3 : oauthParamStr (c.oauthParams nonceHex (ps1 ++ (k, v2) :: ps2)) =
      oauthParamStr (c.oauthParams nonceHex (ps1 ++ (k, v2') :: ps2)) := by
    apply oauthParamStr_congr
    · rw [e2 v2, e2 v2']
      simp
    · intro key
      rw [e2 v2, e2 v2']
      exact get_middle_congr ps1 (ps2 ++ oauthTail c nonceHex) k v2 v2' key hk
  have h4 : c.oauthSignature method urlStr nonceHex (ps1 ++ (k, v2) :: ps2) =
      c.oauthSignature method urlStr nonceHex (ps1 ++ (k, v2') :: ps2) := by
    simp only [Client.oauthSignature]
    rw [h3]
  refine ⟨h1, h2, h3, h4, ?_⟩
  set F := c.oauthFinalParams method urlStr nonceHex (ps1 ++ (k, v2) :: ps2)
    with hF
  have hmemF : (k, v2) ∈ F := by
    rw [hF, Client.oauthFinalParams, Values.add, e2 v2]
    simp
  have hkeysF : k ∈ Values.keys F := by
    rw [Values.keys, List.mem_dedup]
    exact List.mem_map_of_mem Prod.fst hmemF
  have hsorted : k ∈ sortStrings (Values.keys F) := by
    rw [sortStrings]
    exact (List.perm_insertionSort keyLe _).mem_iff.mpr hkeysF
  have hv2 : v2 ∈ Values.valuesOf F k := by
    rw [Values.valuesOf]
    refine List.mem_map_of_mem Prod.snd (List.mem_filter.mpr ⟨hmemF, ?_⟩)
    simp
  rw [Values.encodePairs]
  exact List.mem_flatMap.mpr
    ⟨k, hsorted, List.mem_map_of_mem (fun val => queryEscape k ++ "=" ++ queryEscape val) hv2⟩

theorem claim_C10_witness :
    ("a" : String) ∈ ([("a", "1")] : Values).map Prod.fst
    ∧ (Values.get ([("a", "1")] ++ ("a", "2") :: []) "a" =
        Values.get [("a", "1")] "a"
      ∧ (c5w.oauthParams "n" ([("a", "1")] ++ ("a", "2") :: [])).get "a" =
        Values.get [("a", "1")] "a"
      ∧ oauthParamStr (c5w.oauthParams "n" ([("a", "1")] ++ ("a", "2") :: [])) =
          oauthParamStr (c5w.oauthParams "n" ([("a", "1")] ++ ("a", "3") :: []))
      ∧ c5w.oauthSignature "GET" "http://shop.example/p" "n"
            ([("a", "1")] ++ ("a", "2") :: []) =
          c5w.oauthSignature "GET" "http://shop.example/p" "n"
            ([("a", "1")] ++ ("a", "3") :: [])
      ∧ (queryEscape "a" ++ "=" ++ queryEscape "2") ∈
          (c5w.oauthFinalParams "GET" "http://shop.example/p" "n"
            ([("a", "1")] ++ ("a", "2") :: [])).encodePairs) :=
  ⟨by decide,
   claim_C10 c5w "GET" "http://shop.example/p" "n" [("a", "1")] [] "a" "2" "3"
     (by decide)⟩

/-- Nonce-buffer contents for the C8 counterexample: all zeros. -/
def c8b1 : List Nat := List.replicate 16 0

/-- Nonce-buffer contents for the C8 counterexample: first byte 1. -/
def c8b2 : List Nat := 1 :: List.replicate 15 0

/-- A caller mapping that already binds `oauth_nonce`. -/
def c8ps : Values := [("oauth_nonce", "x")]

/-- C8 as stated is false on the code: with a caller mapping that already
binds `oauth_nonce`, two runs with different fixed nonce bytes (the
generated nonce hex becomes a second value of that key) produce the SAME
signature, because the signed parameter string takes only the first value
of each key. -/
theorem claim_C8_counterexample :
    c8b1 ≠ c8b2
    ∧ c5w.oauthSignature "GET" "http://shop.example/p"
        (sha1NonceHex c8b1) c8ps =
      c5w.oauthSignature "GET" "http://shop.example/p"
        (sha1NonceHex c8b2) c8ps := by
  refine ⟨by decide, ?_⟩
  simp only [Client.oauthSignature]
  congr 1

/-- The witness client with the timestamp moved from 1 to 2. -/
def c5wT2 : Client := ⟨"http", "http://shop.example", "ck", "cs", "v3", 2⟩

set_option maxRecDepth 400000 in
/-- C8 amended: with the nonce and timestamp sources modelled as explicit
inputs, signing is deterministic — the signature depends only on the
credentials, the version, the timestamp and the explicit inputs, so two
runs agreeing on those produce identical signatures; differing nonce or
timestamp inputs do not always produce different signatures (they fail to
when the caller's mapping already binds the corresponding `oauth_*` key),
but they do when no such key is pre-bound, as at these concrete inputs
where changing either the nonce hex or the timestamp changes the
signature. -/
theorem claim_C8_amended (cA cB : Client) (method urlStr nonceHex : String)
    (params : Values) (hck : cA.ck = cB.ck) (hcs : cA.cs = cB.cs)
    (hv : cA.version = cB.version)
    (hts : cA.oauthTimestamp = cB.oauthTimestamp) :
    cA.oauthSignature method urlStr nonceHex params =
      cB.oauthSignature method urlStr nonceHex params
    ∧ c5w.oauthSignature "GET" "http://shop.example/p" "a" [] ≠
      c5w.oauthSignature "GET" "http://shop.example/p" "b" []
    ∧ c5w.oauthSignature "GET" "http://shop.example/p" "a" [] ≠
      c5wT2.oauthSignature "GET" "http://shop.example/p" "a" [] := by
  refine ⟨?_, by decide, by decide⟩
  cases cA
  cases cB
  dsimp only at hck hcs hv hts
  subst hck
  subst hcs
  subst hv
  subst hts
  rfl

theorem claim_C8_amended_witness :
    (c5w.ck = c5w.ck ∧ c5w.cs = c5w.cs ∧ c5w.version = c5w.version ∧
      c5w.oauthTimestamp = c5w.oauthTimestamp)
    ∧ (c5w.oauthSignature "GET" "http://shop.example/p" "a" [] =
        c5w.oauthSignature "GET" "http://shop.example/p" "a" []
      ∧ c5w.oauthSignature "GET" "http://shop.example/p" "a" [] ≠
        c5w.oauthSignature "GET" "http://shop.example/p" "b" []
      ∧ c5w.oauthSignature "GET" "http://shop.example/p" "a" [] ≠
        c5wT2.oauthSignature "GET" "http://shop.example/p" "a" []) :=
  ⟨⟨rfl, rfl, rfl, rfl⟩,
   claim_C8_amended c5w c5w "GET" "http://shop.example/p" "a" []
     rfl rfl rfl rfl⟩

end WC
